import Mathlib

/-
  Verification of the centrifuge handlers layer (handlers.go) against its
  natural-language specification.  The Go code is embedded shallowly:
  pure fragments become Lean functions, the stateful transports and the
  per-connection writer become explicit state-passing functions, and the
  single-goroutine view of each loop is modelled as a deterministic trace
  over a quiescent queue.  Components that the handlers use but whose
  source is not part of the analysed tree (internal/queue, internal/proto,
  client.go, the Redis presence manager, gorilla/securecookie) are
  modelled from the specification; each such definition says so in its
  doc comment.
-/

namespace Centrifuge

/-- Disconnect advice sent to a client, mirroring proto.Disconnect with its
Reason and Reconnect fields. -/
structure Disconnect where
  reason : String
  reconnect : Bool
  deriving Repr, DecidableEq

/-- Modelled from the spec: the internal/queue package used by the writer is
not under src/.  Spec section 4.1: a FIFO with Add/Remove/Wait/Size/Len/Close;
Add reports acceptance and fails after Close; a closed queue can still be
drained.  The single-threaded view is a list of pending items plus the closed
flag. -/
structure Queue (α : Type) where
  items : List α
  closed : Bool
  deriving Repr, DecidableEq

/-- Queue.New: an empty, open queue. -/
def Queue.new {α : Type} : Queue α := ⟨[], false⟩

/-- Queue.Add: append an item; rejected when the queue is closed. -/
def Queue.Add {α : Type} (q : Queue α) (x : α) : Queue α × Bool :=
  if q.closed then (q, false)
  else ({ q with items := q.items ++ [x] }, true)

/-- Queue.Remove: pop the first item when one is pending. -/
def Queue.Remove {α : Type} (q : Queue α) : Queue α × Option α :=
  match q with
  | ⟨[], _⟩ => (q, none)
  | ⟨x :: xs, c⟩ => (⟨xs, c⟩, some x)

/-- Queue.Len: number of pending items. -/
def Queue.Len {α : Type} (q : Queue α) : Nat := q.items.length

/-- Queue.Size: total size of pending items, with the per-item size supplied
by the caller (spec section 4.1). -/
def Queue.Size {α : Type} (sz : α → Nat) (q : Queue α) : Nat :=
  (q.items.map sz).sum

/-- Queue.Close: mark the queue closed; pending items stay drainable. -/
def Queue.Close {α : Type} (q : Queue α) : Queue α := { q with closed := true }

/-- Queue.Closed: the closed flag. -/
def Queue.Closed {α : Type} (q : Queue α) : Bool := q.closed

/-- writerConfig from handlers.go: the queue byte limit. -/
structure writerConfig where
  MaxQueueSize : Nat
  deriving Repr, DecidableEq

/-- writer from handlers.go: the per-connection message queue plus its closed
flag.  The write function installed by onWrite is passed separately where a
model needs it. -/
structure writer (α : Type) where
  config : writerConfig
  messages : Queue α
  closed : Bool
  deriving Repr, DecidableEq

/-- newWriter from handlers.go: fresh queue, not closed. -/
def newWriter {α : Type} (config : writerConfig) : writer α :=
  ⟨config, Queue.new, false⟩

/-- writer.write from handlers.go lines 1019-1028: Add the data to the queue;
when Add is rejected return nil; when the queue size after the Add exceeds
MaxQueueSize return the slow-consumer disconnect; otherwise nil. -/
def writer.write {α : Type} (sz : α → Nat) (w : writer α) (data : α) :
    writer α × Option Disconnect :=
  let (q, ok) := w.messages.Add data
  let w1 : writer α := { w with messages := q }
  if !ok then
    (w1, none)
  else if Queue.Size sz q > w.config.MaxQueueSize then
    (w1, some ⟨"slow", true⟩)
  else
    (w1, none)

/-- writer.close from handlers.go lines 1034-1044: close the queue once; a
second call observes the closed flag and does nothing.  The returned error is
always nil, modelled as an always-none Option String. -/
def writer.close {α : Type} (w : writer α) : writer α × Option String :=
  if w.closed then (w, none)
  else ({ w with messages := w.messages.Close, closed := true }, none)

/-- C2: writer.write returns the slow disconnect exactly when the enqueue was
accepted and the queue byte size after the Add strictly exceeds MaxQueueSize;
any disconnect it returns is exactly the slow one with Reconnect true, and in
every other case (including a closed queue rejecting the Add) it returns
nil. -/
theorem writer_write_slow_iff {α : Type} (sz : α → Nat) (w : writer α) (data : α) :
    ((writer.write sz w data).snd = some ⟨"slow", true⟩ ↔
      ((w.messages.Add data).snd = true ∧
        Queue.Size sz (w.messages.Add data).fst > w.config.MaxQueueSize)) ∧
    (∀ d : Disconnect, (writer.write sz w data).snd = some d → d = ⟨"slow", true⟩) := by
  obtain ⟨cfg, ⟨items, qc⟩, wcl⟩ := w
  cases qc
  · by_cases hs : Queue.Size sz ⟨items ++ [data], false⟩ > cfg.MaxQueueSize
    · simp [writer.write, Queue.Add, hs]
    · simp [writer.write, Queue.Add, hs]
  · simp [writer.write, Queue.Add]

/-- Witness for C2 at a concrete input: a writer with MaxQueueSize 1 and an
item of size 5 is told to disconnect the slow consumer. -/
theorem writer_write_slow_iff_witness :
    (writer.write (fun n : Nat => n) ⟨⟨1⟩, ⟨[], false⟩, false⟩ 5).snd =
      some ⟨"slow", true⟩ :=
  (writer_write_slow_iff (fun n : Nat => n) ⟨⟨1⟩, ⟨[], false⟩, false⟩ 5).1.mpr
    (by constructor <;> decide)

/-- mergeQueueMessages from handlers.go line 958. -/
def mergeQueueMessages : Bool := true

/-- maxMessagesInFrame from handlers.go line 959. -/
def maxMessagesInFrame : Nat := 4

/-- The inner drain loop of writer.runWriteRoutine, handlers.go lines 990-1004:
starting from the batch msgs, run the countdown loop; each round first checks
the maxMessagesInFrame cap, then Removes one message; when Remove fails the
routine exits without a write if the queue is closed (third component true) and
otherwise breaks out of the drain. -/
def runWriteRoutineDrain {α : Type} :
    Nat → List α → Queue α → List α × Queue α × Bool
  | 0, msgs, q => (msgs, q, false)
  | Nat.succ k, msgs, q =>
    if msgs.length ≥ maxMessagesInFrame then
      (msgs, q, false)
    else
      match q.Remove with
      | (q1, some m) => runWriteRoutineDrain k (msgs ++ [m]) q1
      | (q1, none) => if q1.Closed then (msgs, q1, true) else (msgs, q1, false)

/-- One iteration of writer.runWriteRoutine, handlers.go lines 963-1015, on a
quiescent queue: Wait for a message (none when nothing is pending, ending the
trace), then when more messages are queued and mergeQueueMessages is set, drain
up to maxMessagesInFrame of them into one batch; the result is the batch handed
to writeFn together with the remaining queue, or none when the routine performs
no write. -/
def runWriteRoutineStep {α : Type} (q : Queue α) : Option (List α × Queue α) :=
  match q with
  | ⟨[], _⟩ => none
  | ⟨msg :: rest, c⟩ =>
    let q1 : Queue α := ⟨rest, c⟩
    let messageCount := q1.Len
    if mergeQueueMessages ∧ messageCount > 0 then
      match runWriteRoutineDrain messageCount [msg] q1 with
      | (_, _, true) => none
      | (msgs, q2, false) => some (msgs, q2)
    else
      some ([msg], q1)

/-- The loop of writer.runWriteRoutine as a trace: collect the batches handed
to writeFn, stopping after the first batch on which writeFn errors (returns
false) or when an iteration performs no write.  Recursion is bounded by fuel;
each performed write consumes at least one queued item, so the pending item
count is always enough fuel. -/
def runWriteRoutineFuel {α : Type} :
    Nat → (List α → Bool) → Queue α → List (List α)
  | 0, _, _ => []
  | Nat.succ fuel, f, q =>
    match runWriteRoutineStep q with
    | none => []
    | some (msgs, q1) =>
      if f msgs then msgs :: runWriteRoutineFuel fuel f q1 else [msgs]

/-- writer.runWriteRoutine on a quiescent queue: the list of batches written. -/
def runWriteRoutine {α : Type} (f : List α → Bool) (q : Queue α) :
    List (List α) :=
  runWriteRoutineFuel q.Len f q

theorem runWriteRoutineDrain_spec {α : Type} :
    ∀ (k : Nat) (msgs : List α) (q : Queue α),
      msgs.length ≤ maxMessagesInFrame →
      ∃ j, (runWriteRoutineDrain k msgs q).fst = msgs ++ q.items.take j ∧
        (runWriteRoutineDrain k msgs q).snd.fst.items = q.items.drop j ∧
        (runWriteRoutineDrain k msgs q).fst.length ≤ maxMessagesInFrame := by
  intro k
  induction k with
  | zero =>
    intro msgs q h
    exact ⟨0, by simp [runWriteRoutineDrain], by simp [runWriteRoutineDrain], by
      simpa [runWriteRoutineDrain] using h⟩
  | succ k ih =>
    intro msgs q h
    by_cases hfull : msgs.length ≥ maxMessagesInFrame
    · exact ⟨0, by simp [runWriteRoutineDrain, hfull], by
        simp [runWriteRoutineDrain, hfull], by
        simpa [runWriteRoutineDrain, hfull] using h⟩
    · match hq : q with
      | ⟨[], c⟩ =>
        refine ⟨0, ?_, ?_, ?_⟩ <;>
          simp [runWriteRoutineDrain, hfull, Queue.Remove, Queue.Closed] <;>
          by_cases hcl : c = true <;> simp [hcl, h]
      | ⟨x :: xs, c⟩ =>
        have hlen : (msgs ++ [x]).length ≤ maxMessagesInFrame := by
          have : msgs.length < maxMessagesInFrame := Nat.lt_of_not_le hfull
          simpa [List.length_append] using this
        obtain ⟨j, h1, h2, h3⟩ := ih (msgs ++ [x]) ⟨xs, c⟩ hlen
        refine ⟨j + 1, ?_, ?_, ?_⟩
        · simpa [runWriteRoutineDrain, hfull, Queue.Remove] using h1
        · simpa [runWriteRoutineDrain, hfull, Queue.Remove] using h2
        · simpa [runWriteRoutineDrain, hfull, Queue.Remove] using h3

theorem runWriteRoutineStep_spec {α : Type} (q : Queue α) (msgs : List α)
    (q1 : Queue α) (h : runWriteRoutineStep q = some (msgs, q1)) :
    1 ≤ msgs.length ∧ msgs.length ≤ maxMessagesInFrame ∧
      msgs ++ q1.items = q.items := by
  match hq : q with
  | ⟨[], c⟩ => simp [runWriteRoutineStep] at h
  | ⟨msg :: rest, c⟩ =>
    by_cases hrest : rest.length > 0
    · have hone : ([msg] : List α).length ≤ maxMessagesInFrame := by
        simp [maxMessagesInFrame]
      obtain ⟨j, h1, h2, h3⟩ :=
        runWriteRoutineDrain_spec rest.length [msg] ⟨rest, c⟩ hone
      revert h
      simp only [runWriteRoutineStep, Queue.Len, mergeQueueMessages, hrest]
      match hd : runWriteRoutineDrain rest.length [msg] (⟨rest, c⟩ : Queue α) with
      | (ms, q2, true) => intro h; simp at h
      | (ms, q2, false) =>
        intro h
        simp only [true_and, if_true, Option.some.injEq, Prod.mk.injEq] at h
        rw [hd] at h1 h2 h3
        simp only at h1 h2 h3
        obtain ⟨hm, hq1⟩ := h
        subst hm; subst hq1
        refine ⟨?_, h3, ?_⟩
        · rw [h1]; simp
        · rw [h1, h2]
          simp
    · have hrest0 : rest = [] := by
        cases rest with
        | nil => rfl
        | cons a l => simp at hrest
      subst hrest0
      simp only [runWriteRoutineStep, Queue.Len, List.length_nil, gt_iff_lt,
        Nat.lt_irrefl, and_false, if_false, Option.some.injEq,
        Prod.mk.injEq] at h
      obtain ⟨hm, hq1⟩ := h
      subst hm; subst hq1
      refine ⟨by simp, by simp [maxMessagesInFrame], by simp⟩

theorem runWriteRoutineFuel_spec {α : Type} :
    ∀ (fuel : Nat) (f : List α → Bool) (q : Queue α),
      (∀ b ∈ runWriteRoutineFuel fuel f q,
        1 ≤ b.length ∧ b.length ≤ maxMessagesInFrame) ∧
      (∃ t, (runWriteRoutineFuel fuel f q).flatten ++ t = q.items) ∧
      (∀ b ∈ (runWriteRoutineFuel fuel f q).dropLast, f b = true) := by
  intro fuel
  induction fuel with
  | zero =>
    intro f q
    refine ⟨by simp [runWriteRoutineFuel], ⟨q.items, by simp [runWriteRoutineFuel]⟩,
      by simp [runWriteRoutineFuel]⟩
  | succ fuel ih =>
    intro f q
    match hs : runWriteRoutineStep q with
    | none =>
      refine ⟨by simp [runWriteRoutineFuel, hs], ⟨q.items, by
        simp [runWriteRoutineFuel, hs]⟩, by simp [runWriteRoutineFuel, hs]⟩
    | some (msgs, q1) =>
      obtain ⟨hb1, hb4, hfifo⟩ := runWriteRoutineStep_spec q msgs q1 hs
      by_cases hf : f msgs = true
      · obtain ⟨ihb, ⟨t, iht⟩, ihd⟩ := ih f q1
        refine ⟨?_, ⟨t, ?_⟩, ?_⟩
        · intro b hb
          simp only [runWriteRoutineFuel, hs, hf, if_true, List.mem_cons] at hb
          rcases hb with rfl | hb
          · exact ⟨hb1, hb4⟩
          · exact ihb b hb
        · simp only [runWriteRoutineFuel, hs, hf, if_true, List.flatten_cons,
            List.append_assoc, iht, hfifo]
        · intro b hb
          simp only [runWriteRoutineFuel, hs, hf, if_true] at hb
          match hrec : runWriteRoutineFuel fuel f q1 with
          | [] => rw [hrec] at hb; simp at hb
          | c :: cs =>
            rw [hrec] at hb
            rw [List.dropLast_cons_of_ne_nil (by simp)] at hb
            simp only [List.mem_cons] at hb
            rcases hb with rfl | hb
            · exact hf
            · exact ihd b (by rw [hrec]; exact hb)
      · refine ⟨?_, ⟨q1.items, ?_⟩, ?_⟩
        · intro b hb
          simp [runWriteRoutineFuel, hs, hf] at hb
          subst hb
          exact ⟨hb1, hb4⟩
        · simp [runWriteRoutineFuel, hs, hf, hfifo]
        · intro b hb
          simp [runWriteRoutineFuel, hs, hf] at hb

/-- C4: every batch the writer loop hands to the transport write function
holds between 1 and maxMessagesInFrame messages; concatenated in order the
batches form a prefix of the queued items (FIFO, no reorder, no skip); and
every batch except possibly the final one was written successfully, so after
the first write error the loop performs no further writes. -/
theorem runWriteRoutine_batches {α : Type} (f : List α → Bool) (q : Queue α) :
    (∀ b ∈ runWriteRoutine f q,
      1 ≤ b.length ∧ b.length ≤ maxMessagesInFrame) ∧
    (∃ t, (runWriteRoutine f q).flatten ++ t = q.items) ∧
    (∀ b ∈ (runWriteRoutine f q).dropLast, f b = true) :=
  runWriteRoutineFuel_spec q.Len f q

/-- Witness for C4 at a concrete input: five queued items with an
always-succeeding write function produce a first batch of four (within bounds)
and all non-final batches succeed. -/
theorem runWriteRoutine_batches_witness :
    (1 ≤ ([1, 2, 3, 4] : List Nat).length ∧
      ([1, 2, 3, 4] : List Nat).length ≤ maxMessagesInFrame) ∧
    (fun _ : List Nat => true) [1, 2, 3, 4] = true :=
  ⟨(runWriteRoutine_batches (fun _ => true) ⟨[1, 2, 3, 4, 5], false⟩).1
      [1, 2, 3, 4] (by decide),
    (runWriteRoutine_batches (fun _ => true) ⟨[1, 2, 3, 4, 5], false⟩).2.2
      [1, 2, 3, 4] (by decide)⟩

/-- Modelled from the spec: the text of proto.ErrBadRequest (internal/proto is
not under src/); the bad-request error kind of spec section 7. -/
def errBadRequestText : String := "bad request"

/-- Modelled from the spec: proto.DisconnectBadRequest, the fatal disconnect
for a protocol violation; Reconnect false is a terminal instruction to the
client (spec section 7). -/
def DisconnectBadRequest : Disconnect := ⟨errBadRequestText, false⟩

/-- Modelled from the spec: proto.DisconnectNormal substituted by the
transports when Close receives no disconnect. -/
def DisconnectNormal : Disconnect := ⟨"normal", true⟩

/-- A client protocol command as handleClientData manipulates it: the
command ID plus an opaque payload standing for method and params. -/
structure Command where
  ID : Nat
  payload : Nat
  deriving Repr, DecidableEq

/-- A reply produced for one command: the reply ID plus an opaque result. -/
structure Reply where
  ID : Nat
  result : Nat
  deriving Repr, DecidableEq

/-- One item the command decoder yields from a client frame: either a decoded
command, or a malformed entry on which Decode returns a non-EOF error; the end
of the list is io.EOF. -/
inductive FrameItem where
  | cmd : Command → FrameItem
  | malformed : FrameItem
  deriving Repr, DecidableEq

/-- Modelled from the spec: the outcome of Client.Handle for one dispatched
command (client.go is not under src/) — an optional reply to encode plus an
optional fatal disconnect, exactly the pair handleClientData consumes. -/
structure HandleOutcome where
  rep : Option Reply
  disconnect : Option Disconnect
  deriving Repr, DecidableEq

/-- The observable behaviour of one handleClientData call: its boolean return,
the disconnect passed to transport.Close (if any), the disconnect passed to
c.Close (if any), the commands dispatched to Client.Handle in order, the
frames handed to writer.write in order, and the final writer state. -/
structure ClientDataResult where
  ok : Bool
  transportClosed : Option Disconnect
  clientClosed : Option Disconnect
  dispatched : List Command
  written : List (List Reply)
  w : writer (List Reply)
  deriving Repr, DecidableEq

/-- The decode/dispatch loop of handleClientData, handlers.go lines 1079-1115:
decode items one by one; a malformed item closes the transport with the
bad-request disconnect; a zero command ID closes the client with the
bad-request disconnect; a disconnect returned by Handle closes the transport;
otherwise the reply (when present) is appended to the encoder buffer.  The
right summand is the early exit (transport disconnect, client disconnect,
commands dispatched so far); the left summand is the EOF exit with the final
encoder buffer and the dispatched commands.  encoder.Encode is an in-memory
append and is modelled as infallible. -/
def handleClientDataLoop (handle : Command → HandleOutcome) :
    List FrameItem → List Reply → List Command →
    (List Reply × List Command) ⊕ (Option Disconnect × Option Disconnect × List Command)
  | [], enc, disp => Sum.inl (enc, disp)
  | FrameItem.malformed :: _, _, disp =>
    Sum.inr (some DisconnectBadRequest, none, disp)
  | FrameItem.cmd c :: rest, enc, disp =>
    if c.ID = 0 then
      Sum.inr (none, some DisconnectBadRequest, disp)
    else
      match handle c with
      | ⟨_, some d⟩ => Sum.inr (some d, none, disp ++ [c])
      | ⟨some r, none⟩ => handleClientDataLoop handle rest (enc ++ [r]) (disp ++ [c])
      | ⟨none, none⟩ => handleClientDataLoop handle rest enc (disp ++ [c])

/-- handleClientData from handlers.go lines 1069-1130: empty data closes the
transport with a bad-request disconnect and returns false; otherwise the
decode/dispatch loop runs and, on reaching EOF, the encoder result is handed
to writer.write as a single frame; a disconnect returned by the writer closes
the transport and the call returns false, else true. -/
def handleClientData (sz : List Reply → Nat) (handle : Command → HandleOutcome)
    (w : writer (List Reply)) (data : List FrameItem) : ClientDataResult :=
  if data = [] then
    { ok := false, transportClosed := some ⟨errBadRequestText, false⟩,
      clientClosed := none, dispatched := [], written := [], w := w }
  else
    match handleClientDataLoop handle data [] [] with
    | Sum.inr (tc, cc, disp) =>
      { ok := false, transportClosed := tc, clientClosed := cc,
        dispatched := disp, written := [], w := w }
    | Sum.inl (enc, disp) =>
      let (w1, disc) := writer.write sz w enc
      match disc with
      | some d =>
        { ok := false, transportClosed := some d, clientClosed := none,
          dispatched := disp, written := [enc], w := w1 }
      | none =>
        { ok := true, transportClosed := none, clientClosed := none,
          dispatched := disp, written := [enc], w := w1 }

theorem handleClientDataLoop_append (handle : Command → HandleOutcome)
    (rep : Command → Reply) :
    ∀ (cs : List Command) (tail : List FrameItem) (enc : List Reply)
      (disp : List Command),
      (∀ c ∈ cs, c.ID ≠ 0) →
      (∀ c ∈ cs, handle c = ⟨some (rep c), none⟩) →
      handleClientDataLoop handle (cs.map FrameItem.cmd ++ tail) enc disp =
        handleClientDataLoop handle tail (enc ++ cs.map rep) (disp ++ cs) := by
  intro cs
  induction cs with
  | nil => intro tail enc disp _ _; simp
  | cons c cs ih =>
    intro tail enc disp hnz hh
    have hc0 : c.ID ≠ 0 := hnz c (by simp)
    have hhc : handle c = ⟨some (rep c), none⟩ := hh c (by simp)
    simp only [List.map_cons, List.cons_append, handleClientDataLoop, hc0,
      if_false, hhc]
    rw [List.append_eq, ih tail (enc ++ [rep c]) (disp ++ [c])
      (fun x hx => hnz x (by simp [hx])) (fun x hx => hh x (by simp [hx]))]
    simp

/-- C1: when a frame decodes to commands cs (several, all with nonzero IDs) and
Handle answers each command c with reply rep c carrying no disconnect, then
handleClientData dispatches exactly cs in decode order and hands the writer a
single frame consisting of the replies in that same order; when each reply
carries its command's ID the frame's reply IDs equal the command IDs in order,
so the reply to the earlier of two commands precedes the reply to the later
one. -/
theorem handleClientData_pipelining (sz : List Reply → Nat)
    (handle : Command → HandleOutcome) (rep : Command → Reply)
    (w : writer (List Reply)) (cs : List Command)
    (hne : cs ≠ [])
    (hnz : ∀ c ∈ cs, c.ID ≠ 0)
    (hh : ∀ c ∈ cs, handle c = ⟨some (rep c), none⟩)
    (hid : ∀ c ∈ cs, (rep c).ID = c.ID) :
    (handleClientData sz handle w (cs.map FrameItem.cmd)).dispatched = cs ∧
    (handleClientData sz handle w (cs.map FrameItem.cmd)).written =
      [cs.map rep] ∧
    (cs.map rep).map Reply.ID = cs.map Command.ID := by
  have hdata : cs.map FrameItem.cmd ≠ [] := by
    intro h; exact hne (by simpa using h)
  have hloop : handleClientDataLoop handle (cs.map FrameItem.cmd) [] [] =
      Sum.inl (cs.map rep, cs) := by
    have := handleClientDataLoop_append handle rep cs [] [] [] hnz hh
    simpa [handleClientDataLoop] using this
  have hids : (cs.map rep).map Reply.ID = cs.map Command.ID := by
    rw [List.map_map]
    exact List.map_congr_left fun c hc => hid c hc
  refine ⟨?_, ?_, hids⟩ <;>
  · simp only [handleClientData, hdata, if_false, hloop]
    match hw : writer.write sz w (cs.map rep) with
    | (w1, some d) => simp
    | (w1, none) => simp

/-- Witness for C1 at a concrete input: two commands with IDs 1 and 2 produce
a single frame whose replies carry IDs 1 then 2. -/
theorem handleClientData_pipelining_witness :
    (handleClientData (fun f => f.length)
        (fun c : Command => ⟨some ⟨c.ID, 0⟩, none⟩) (newWriter ⟨1000⟩)
        (([⟨1, 0⟩, ⟨2, 0⟩] : List Command).map FrameItem.cmd)).dispatched =
      [⟨1, 0⟩, ⟨2, 0⟩] ∧
    (handleClientData (fun f => f.length)
        (fun c : Command => ⟨some ⟨c.ID, 0⟩, none⟩) (newWriter ⟨1000⟩)
        (([⟨1, 0⟩, ⟨2, 0⟩] : List Command).map FrameItem.cmd)).written =
      [([⟨1, 0⟩, ⟨2, 0⟩] : List Command).map fun c => (⟨c.ID, 0⟩ : Reply)] ∧
    ((([⟨1, 0⟩, ⟨2, 0⟩] : List Command).map fun c => (⟨c.ID, 0⟩ : Reply)).map
        Reply.ID) = ([⟨1, 0⟩, ⟨2, 0⟩] : List Command).map Command.ID :=
  handleClientData_pipelining (fun f => f.length)
    (fun c : Command => ⟨some ⟨c.ID, 0⟩, none⟩) (fun c => ⟨c.ID, 0⟩)
    (newWriter ⟨1000⟩) [⟨1, 0⟩, ⟨2, 0⟩] (by decide) (by decide)
    (fun c _ => rfl) (fun c _ => rfl)

/-- C9: an empty data slice makes handleClientData close the transport with a
disconnect whose reason is the bad-request error text and whose Reconnect is
false, return false, dispatch no command and write nothing. -/
theorem handleClientData_empty_data (sz : List Reply → Nat)
    (handle : Command → HandleOutcome) (w : writer (List Reply)) :
    handleClientData sz handle w [] =
      { ok := false, transportClosed := some ⟨errBadRequestText, false⟩,
        clientClosed := none, dispatched := [], written := [], w := w } := by
  simp [handleClientData]

/-- Counterexample for C3 as stated: on a frame whose single decoder item is
malformed, handleClientData does not keep the connection open — it closes the
transport (with the bad-request disconnect), returns false, and hands no
per-command error reply to the writer. -/
theorem handleClientData_decode_error_cex :
    (handleClientData (fun f => f.length) (fun _ => ⟨none, none⟩)
        (newWriter ⟨100⟩) [FrameItem.malformed]).transportClosed ≠ none ∧
    (handleClientData (fun f => f.length) (fun _ => ⟨none, none⟩)
        (newWriter ⟨100⟩) [FrameItem.malformed]).ok = false ∧
    (handleClientData (fun f => f.length) (fun _ => ⟨none, none⟩)
        (newWriter ⟨100⟩) [FrameItem.malformed]).written = [] := by
  refine ⟨?_, ?_, ?_⟩ <;> decide

/-- C3 amended: when decoding a command fails with a non-EOF error (after any
run of well-formed commands that Handle answered without disconnect), the
client receives no per-command error reply: handleClientData closes the
transport with the bad-request disconnect (Reconnect false), returns false,
and hands nothing to the writer. -/
theorem handleClientData_decode_error_closes (sz : List Reply → Nat)
    (handle : Command → HandleOutcome) (rep : Command → Reply)
    (w : writer (List Reply)) (pre : List Command) (rest : List FrameItem)
    (hnz : ∀ c ∈ pre, c.ID ≠ 0)
    (hh : ∀ c ∈ pre, handle c = ⟨some (rep c), none⟩) :
    handleClientData sz handle w
        (pre.map FrameItem.cmd ++ FrameItem.malformed :: rest) =
      { ok := false, transportClosed := some DisconnectBadRequest,
        clientClosed := none, dispatched := pre, written := [], w := w } := by
  have hdata : pre.map FrameItem.cmd ++ FrameItem.malformed :: rest ≠ [] := by
    simp
  have hloop : handleClientDataLoop handle
      (pre.map FrameItem.cmd ++ FrameItem.malformed :: rest) [] [] =
      Sum.inr (some DisconnectBadRequest, none, pre) := by
    rw [handleClientDataLoop_append handle rep pre (FrameItem.malformed :: rest)
      [] [] hnz hh]
    simp [handleClientDataLoop]
  simp [handleClientData, hdata, hloop]

/-- Witness for the amended C3 at a concrete input: one good command followed
by a malformed item closes the transport with the bad-request disconnect. -/
theorem handleClientData_decode_error_closes_witness :
    handleClientData (fun f => f.length)
        (fun c => ⟨some ⟨c.ID, 0⟩, none⟩) (newWriter ⟨100⟩)
        (([⟨1, 0⟩] : List Command).map FrameItem.cmd ++
          FrameItem.malformed :: []) =
      { ok := false, transportClosed := some DisconnectBadRequest,
        clientClosed := none, dispatched := [⟨1, 0⟩], written := [],
        w := newWriter ⟨100⟩ } :=
  handleClientData_decode_error_closes (fun f => f.length)
    (fun c => ⟨some ⟨c.ID, 0⟩, none⟩) (fun c => ⟨c.ID, 0⟩) (newWriter ⟨100⟩)
    [⟨1, 0⟩] [] (by decide) (fun c _ => rfl)

/-- The compression decision of websocketTransport.write, handlers.go line
744-746: when compressionMinSize is positive the connection's write compression
is set according to the comparison performed by the source, which is
len(data) > compressionMinSize where data is the variadic slice of payloads —
so the left-hand side is the number of messages in the frame, not a byte
count.  none means EnableWriteCompression is not called. -/
def websocketWriteCompression (compressionMinSize : Int)
    (data : List (List Nat)) : Option Bool :=
  if compressionMinSize > 0 then
    some (decide ((data.length : Int) > compressionMinSize))
  else none

/-- The compression decision as the spec and the WebsocketCompressionMinSize
field documentation describe it: compare the byte size of the message being
written against the threshold. -/
def specCompressionDecision (compressionMinSize : Int)
    (data : List (List Nat)) : Option Bool :=
  if compressionMinSize > 0 then
    some (decide (((data.map List.length).sum : Int) > compressionMinSize))
  else none

/-- C5 evidence: with WebsocketCompressionMinSize = 1 and a single queued
payload of three bytes, the code disables compression (it compares the message
count 1, not the byte size 3, against the threshold) while the documented
byte-size rule — specCompressionDecision — enables it, so the code contradicts
its own WebsocketCompressionMinSize documentation. -/
theorem websocket_compression_counts_messages :
    websocketWriteCompression 1 [[7, 7, 7]] = some false ∧
    specCompressionDecision 1 [[7, 7, 7]] = some true ∧
    websocketWriteCompression 1 [[7, 7, 7]] ≠
      specCompressionDecision 1 [[7, 7, 7]] := by
  refine ⟨?_, ?_, ?_⟩ <;> decide

/-- The read-deadline and pong-handler configuration computed by
WebsocketHandler.ServeHTTP, handlers.go lines 889-893: the deadline set now
(as an offset from now, none when not set) and the offset the installed pong
handler uses on each pong (none when no handler installed).  Durations are
nonnegative nanosecond counts. -/
structure pingDeadlineSetup where
  readDeadlineFromNow : Option Nat
  pongResetFromNow : Option Nat
  deriving Repr, DecidableEq

/-- The pingInterval-dependent part of WebsocketHandler.ServeHTTP: when
ClientPingInterval is positive, pongWait is pingInterval * 10 / 9, the read
deadline is set to now plus pongWait, and the pong handler resets the read
deadline to now plus pongWait; otherwise neither is installed. -/
def serveHTTPPingSetup (pingInterval : Nat) : pingDeadlineSetup :=
  if pingInterval > 0 then
    let pongWait := pingInterval * 10 / 9
    { readDeadlineFromNow := some pongWait, pongResetFromNow := some pongWait }
  else
    { readDeadlineFromNow := none, pongResetFromNow := none }

/-- C6: with a positive ClientPingInterval the websocket handler sets the read
deadline to now plus pongWait and installs a pong handler resetting it to now
plus pongWait, with pongWait = ClientPingInterval * 10 / 9; with a zero
interval neither a read deadline nor a pong handler is installed. -/
theorem serveHTTP_pong_deadline (pingInterval : Nat) :
    (0 < pingInterval →
      serveHTTPPingSetup pingInterval =
        { readDeadlineFromNow := some (pingInterval * 10 / 9),
          pongResetFromNow := some (pingInterval * 10 / 9) }) ∧
    (pingInterval = 0 →
      serveHTTPPingSetup pingInterval =
        { readDeadlineFromNow := none, pongResetFromNow := none }) := by
  constructor
  · intro h
    simp [serveHTTPPingSetup, h]
  · intro h
    simp [serveHTTPPingSetup, h]

/-- Witness for C6 at concrete inputs: interval 9 yields a 10-unit pongWait in
both places, interval 0 installs nothing. -/
theorem serveHTTP_pong_deadline_witness :
    serveHTTPPingSetup 9 =
      { readDeadlineFromNow := some 10, pongResetFromNow := some 10 } ∧
    serveHTTPPingSetup 0 =
      { readDeadlineFromNow := none, pongResetFromNow := none } :=
  ⟨(serveHTTP_pong_deadline 9).1 (by decide), (serveHTTP_pong_deadline 0).2 rfl⟩

/-- Modelled from the spec: a token produced by the gorilla/securecookie codec
(an external dependency whose source is not part of the analysed tree).  With
a hash key and nil block key, securecookie HMAC-authenticates a (name, value)
pair under the secret, and Decode yields the value only when the MAC verifies
for the same secret and name.  The MAC is idealised as perfectly binding: a
token records exactly the secret, name and value it was produced from. -/
structure SecureToken where
  secret : String
  name : String
  value : String
  deriving Repr, DecidableEq

/-- securecookie Encode in the idealised model. -/
def securecookieEncode (secret name value : String) : SecureToken :=
  ⟨secret, name, value⟩

/-- securecookie Decode in the idealised model: verify the MAC (same secret
and name) and return the recorded value. -/
def securecookieDecode (secret name : String) (t : SecureToken) :
    Option String :=
  if t.secret = secret ∧ t.name = name then some t.value else none

/-- secureAdminTokenKey from handlers.go line 154. -/
def secureAdminTokenKey : String := "token"

/-- secureAdminTokenValue from handlers.go line 156. -/
def secureAdminTokenValue : String := "authorized"

/-- generateSecureAdminToken from handlers.go lines 159-163: encode the value
"authorized" under the key "token" with the admin secret. -/
def generateSecureAdminToken (secret : String) : SecureToken :=
  securecookieEncode secret secureAdminTokenKey secureAdminTokenValue

/-- checkSecureAdminToken from handlers.go lines 165-177: decode the token
with the admin secret; a decode failure or a value other than "authorized"
yields false. -/
def checkSecureAdminToken (secret : String) (token : SecureToken) : Bool :=
  match securecookieDecode secret secureAdminTokenKey token with
  | none => false
  | some val => if val ≠ secureAdminTokenValue then false else true

/-- C8: a generated admin token always verifies under the same secret; any
token that does not decode to "authorized" under that secret is rejected; in
particular a token generated with a different secret is rejected. -/
theorem secure_admin_token_check (secret : String) (t : SecureToken)
    (other : String)
    (ht : securecookieDecode secret secureAdminTokenKey t ≠
      some secureAdminTokenValue)
    (hother : other ≠ secret) :
    checkSecureAdminToken secret (generateSecureAdminToken secret) = true ∧
    checkSecureAdminToken secret t = false ∧
    checkSecureAdminToken secret (generateSecureAdminToken other) = false := by
  refine ⟨?_, ?_, ?_⟩
  · simp [checkSecureAdminToken, generateSecureAdminToken, securecookieEncode,
      securecookieDecode]
  · unfold checkSecureAdminToken
    match hdec : securecookieDecode secret secureAdminTokenKey t with
    | none => simp
    | some val =>
      rw [hdec] at ht
      have hval : val ≠ secureAdminTokenValue := fun h => ht (by rw [h])
      simp [hval]
  · simp [checkSecureAdminToken, generateSecureAdminToken, securecookieEncode,
      securecookieDecode, hother]

/-- Witness for C8 at concrete inputs: secret "s1", a token for a different
value under "s1", and the foreign secret "s2". -/
theorem secure_admin_token_check_witness :
    checkSecureAdminToken "s1" (generateSecureAdminToken "s1") = true ∧
    checkSecureAdminToken "s1" ⟨"s1", "token", "guest"⟩ = false ∧
    checkSecureAdminToken "s1" (generateSecureAdminToken "s2") = false :=
  secure_admin_token_check "s1" ⟨"s1", "token", "guest"⟩ "s2"
    (by decide) (by decide)

/-- State of a sockjsTransport as sockjsTransport.Close affects it: the closed
flag, whether closeCh was closed, and the close frame (status 3000 with the
JSON disconnect reason) sent on the session.  session.Close and json.Marshal
are modelled as succeeding. -/
structure sockjsTransport where
  closed : Bool
  closeChClosed : Bool
  sessionClosedWith : Option Disconnect
  deriving Repr, DecidableEq

/-- sockjsTransport.Close from handlers.go lines 541-558: a second call
observes the closed flag and is a no-op returning nil; the first call marks
the transport closed, closes closeCh, substitutes DisconnectNormal for a nil
disconnect and closes the session with it. -/
def sockjsTransport.Close (t : sockjsTransport) (disconnect : Option Disconnect) :
    sockjsTransport × Option String :=
  if t.closed then (t, none)
  else
    let d := match disconnect with
      | none => DisconnectNormal
      | some d0 => d0
    ({ closed := true, closeChClosed := true, sessionClosedWith := some d }, none)

/-- State of a websocketTransport as websocketTransport.Close affects it. -/
structure websocketTransport where
  closed : Bool
  closeChClosed : Bool
  pingTimerArmed : Bool
  connClosed : Bool
  closeMsgSent : Option Disconnect
  deriving Repr, DecidableEq

/-- websocketTransport.Close from handlers.go lines 783-807: a second call
observes the closed flag and is a no-op returning nil; the first call closes
closeCh, marks the transport closed, stops the ping timer, sends a close
control message when a disconnect was given, and closes the connection.
json.Marshal and the connection writes are modelled as succeeding. -/
def websocketTransport.Close (t : websocketTransport)
    (disconnect : Option Disconnect) : websocketTransport × Option String :=
  if t.closed then (t, none)
  else
    ({ closed := true, closeChClosed := true, pingTimerArmed := false,
       connClosed := true, closeMsgSent := disconnect }, none)

/-- C10: websocketTransport.Close, sockjsTransport.Close and writer.close are
idempotent — the first call leaves the object marked closed (and, from a
not-yet-closed state, performs the close actions), and applying Close again to
the resulting state returns nil and changes nothing. -/
theorem transport_close_idempotent (ts : sockjsTransport)
    (tw : websocketTransport) (w : writer Nat)
    (d d1 dw dw1 : Option Disconnect)
    (hs : ts.closed = false) (hw : tw.closed = false) (hc : w.closed = false) :
    ((sockjsTransport.Close ts d).fst.closed = true ∧
      sockjsTransport.Close (sockjsTransport.Close ts d).fst d1 =
        ((sockjsTransport.Close ts d).fst, none) ∧
      (sockjsTransport.Close ts d).fst.sessionClosedWith ≠ none) ∧
    ((websocketTransport.Close tw dw).fst.closed = true ∧
      websocketTransport.Close (websocketTransport.Close tw dw).fst dw1 =
        ((websocketTransport.Close tw dw).fst, none) ∧
      (websocketTransport.Close tw dw).fst.connClosed = true) ∧
    ((writer.close w).fst.closed = true ∧
      writer.close (writer.close w).fst = ((writer.close w).fst, none) ∧
      (writer.close w).fst.messages.Closed = true) := by
  refine ⟨⟨?_, ?_, ?_⟩, ⟨?_, ?_, ?_⟩, ⟨?_, ?_, ?_⟩⟩ <;>
    simp [sockjsTransport.Close, websocketTransport.Close, writer.close,
      Queue.Close, Queue.Closed, hs, hw, hc]

/-- Witness for C10 at concrete fresh states. -/
theorem transport_close_idempotent_witness :
    ((sockjsTransport.Close ⟨false, false, none⟩ none).fst.closed = true ∧
      sockjsTransport.Close
          (sockjsTransport.Close ⟨false, false, none⟩ none).fst none =
        ((sockjsTransport.Close ⟨false, false, none⟩ none).fst, none) ∧
      (sockjsTransport.Close ⟨false, false, none⟩ none).fst.sessionClosedWith ≠
        none) ∧
    ((websocketTransport.Close ⟨false, false, true, false, none⟩
        (some ⟨"slow", true⟩)).fst.closed = true ∧
      websocketTransport.Close
          (websocketTransport.Close ⟨false, false, true, false, none⟩
            (some ⟨"slow", true⟩)).fst none =
        ((websocketTransport.Close ⟨false, false, true, false, none⟩
          (some ⟨"slow", true⟩)).fst, none) ∧
      (websocketTransport.Close ⟨false, false, true, false, none⟩
        (some ⟨"slow", true⟩)).fst.connClosed = true) ∧
    (((newWriter ⟨10⟩ : writer Nat).close).fst.closed = true ∧
      writer.close ((newWriter ⟨10⟩ : writer Nat).close).fst =
        (((newWriter ⟨10⟩ : writer Nat).close).fst, none) ∧
      ((newWriter ⟨10⟩ : writer Nat).close).fst.messages.Closed = true) :=
  transport_close_idempotent ⟨false, false, none⟩
    ⟨false, false, true, false, none⟩ (newWriter ⟨10⟩) none none
    (some ⟨"slow", true⟩) none rfl rfl rfl

/-- ClientInfo (spec section 3) reduced to the fields presence tracking
uses. -/
structure ClientInfo where
  ClientID : String
  UserID : String
  deriving Repr, DecidableEq

/-- Modelled from the spec: per-channel state of the Redis presence manager
with user-mapping enabled (spec sections 4.7 and 6); presence_redis.go is not
under src/, only its tests are.  The presence hash keyed by clientID and the
user-mapping hash userID to refcount (making NumUsers O(1)) are modelled as
association lists with unique keys; hash ordering is immaterial. -/
structure PresenceChannel where
  clients : List (String × ClientInfo)
  users : List (String × Nat)
  deriving Repr, DecidableEq

/-- Hash-field read: the value stored under the first matching key. -/
def lookupA {β : Type} (k : String) : List (String × β) → Option β
  | [] => none
  | (a, b) :: rest => if a = k then some b else lookupA k rest

/-- Hash-field delete: drop the first entry with the given key. -/
def removeClient (cid : String) :
    List (String × ClientInfo) → List (String × ClientInfo)
  | [] => []
  | (c, i) :: rest =>
    if c = cid then rest else (c, i) :: removeClient cid rest

/-- Increment the refcount of uid in the user-mapping hash, creating the entry
at 1 when absent. -/
def incUser (uid : String) : List (String × Nat) → List (String × Nat)
  | [] => [(uid, 1)]
  | (u, n) :: rest =>
    if u = uid then (u, n + 1) :: rest else (u, n) :: incUser uid rest

/-- Decrement the refcount of uid in the user-mapping hash, deleting the entry
when it drops to zero. -/
def decUser (uid : String) : List (String × Nat) → List (String × Nat)
  | [] => []
  | (u, n) :: rest =>
    if u = uid then (if n ≤ 1 then rest else (u, n - 1) :: rest)
    else (u, n) :: decUser uid rest

/-- Modelled from the spec: AddPresence with user-mapping enabled — upsert the
client entry in the presence hash; a brand-new client increments its UserID
refcount, and an existing client whose UserID changed moves one refcount from
the old UserID to the new one. -/
def AddPresence (ch : PresenceChannel) (clientID : String) (info : ClientInfo) :
    PresenceChannel :=
  match lookupA clientID ch.clients with
  | none =>
    { clients := (clientID, info) :: ch.clients,
      users := incUser info.UserID ch.users }
  | some old =>
    { clients := (clientID, info) :: removeClient clientID ch.clients,
      users :=
        if old.UserID = info.UserID then ch.users
        else incUser info.UserID (decUser old.UserID ch.users) }

/-- Modelled from the spec: RemovePresence with user-mapping enabled — delete
the client entry when present and decrement the refcount of the caller-passed
userID; removing an absent client changes nothing. -/
def RemovePresence (ch : PresenceChannel) (clientID userID : String) :
    PresenceChannel :=
  match lookupA clientID ch.clients with
  | none => ch
  | some _ =>
    { clients := removeClient clientID ch.clients,
      users := decUser userID ch.users }

/-- PresenceStats result: the pair NumClients, NumUsers. -/
structure PresenceStatsResult where
  NumClients : Nat
  NumUsers : Nat
  deriving Repr, DecidableEq

/-- Modelled from the spec: PresenceStats with user-mapping enabled — the
length of the presence hash and, in O(1), the length of the user-mapping
hash. -/
def PresenceChannel.PresenceStats (ch : PresenceChannel) : PresenceStatsResult :=
  { NumClients := ch.clients.length, NumUsers := ch.users.length }

/-- One presence-manager call on a channel. -/
inductive PresenceOp where
  | add : String → ClientInfo → PresenceOp
  | remove : String → String → PresenceOp
  deriving Repr, DecidableEq

/-- Apply one presence call. -/
def applyOp (ch : PresenceChannel) : PresenceOp → PresenceChannel
  | PresenceOp.add cid info => AddPresence ch cid info
  | PresenceOp.remove cid uid => RemovePresence ch cid uid

/-- Apply a call sequence in order. -/
def applyOps (ch : PresenceChannel) (ops : List PresenceOp) : PresenceChannel :=
  ops.foldl applyOp ch

/-- A channel nobody has touched. -/
def emptyChannel : PresenceChannel := ⟨[], []⟩

/-- A call sequence is consistent when every RemovePresence passes the UserID
stored for the client it removes — the contract under which the node calls the
presence manager (the Remove of an absent client is unconstrained). -/
def consistentOps : PresenceChannel → List PresenceOp → Bool
  | _, [] => true
  | ch, op :: ops =>
    (match op with
     | PresenceOp.add _ _ => true
     | PresenceOp.remove cid uid =>
       match lookupA cid ch.clients with
       | some info => info.UserID == uid
       | none => true) && consistentOps (applyOp ch op) ops

/-- Refcount recorded for uid in the user-mapping hash, zero when absent. -/
def userRef (uid : String) (users : List (String × Nat)) : Nat :=
  match lookupA uid users with
  | some n => n
  | none => 0

/-- Number of present clients whose info carries the given UserID. -/
def clientUserCount (uid : String) (clients : List (String × ClientInfo)) : Nat :=
  clients.countP fun p => p.snd.UserID == uid

/-- The invariant tying the user-mapping hash to the presence hash: keys of
both hashes are unique, every refcount is at least one, and the refcount of
every uid equals the number of present clients carrying that uid. -/
structure PresenceInv (ch : PresenceChannel) : Prop where
  clientsNodup : (ch.clients.map Prod.fst).Nodup
  usersNodup : (ch.users.map Prod.fst).Nodup
  usersPos : ∀ p ∈ ch.users, 1 ≤ p.snd
  refCount : ∀ uid : String, userRef uid ch.users = clientUserCount uid ch.clients

theorem lookupA_eq_none_iff {β : Type} (k : String) :
    ∀ l : List (String × β), lookupA k l = none ↔ k ∉ l.map Prod.fst := by
  intro l
  induction l with
  | nil => simp [lookupA]
  | cons p rest ih =>
    obtain ⟨a, b⟩ := p
    by_cases h : a = k
    · subst h
      simp [lookupA]
    · have hk : ¬k = a := fun hx => h hx.symm
      rw [List.map_cons, List.mem_cons]
      rw [show lookupA k ((a, b) :: rest) = lookupA k rest by
        simp [lookupA, h]]
      rw [ih]
      constructor
      · intro h1 h2
        rcases h2 with h2 | h2
        · exact hk h2
        · exact h1 h2
      · intro h1 h2
        exact h1 (Or.inr h2)

theorem lookupA_mem {β : Type} (k : String) :
    ∀ (l : List (String × β)) (v : β), lookupA k l = some v → (k, v) ∈ l := by
  intro l
  induction l with
  | nil => intro v h; simp [lookupA] at h
  | cons p rest ih =>
    obtain ⟨a, b⟩ := p
    intro v h
    by_cases ha : a = k
    · subst ha
      simp [lookupA] at h
      simp [h]
    · simp [lookupA, ha] at h
      exact List.mem_cons_of_mem _ (ih v h)

theorem removeClient_of_absent (cid : String) :
    ∀ l : List (String × ClientInfo), lookupA cid l = none →
      removeClient cid l = l := by
  intro l
  induction l with
  | nil => intro _; rfl
  | cons p rest ih =>
    obtain ⟨a, b⟩ := p
    intro h
    by_cases ha : a = cid
    · subst ha; simp [lookupA] at h
    · simp [lookupA, ha] at h
      simp [removeClient, ha, ih h]

theorem removeClient_map_fst_sublist (cid : String) :
    ∀ l : List (String × ClientInfo),
      ((removeClient cid l).map Prod.fst).Sublist (l.map Prod.fst) := by
  intro l
  induction l with
  | nil => simp [removeClient]
  | cons p rest ih =>
    obtain ⟨a, b⟩ := p
    by_cases ha : a = cid
    · simp only [removeClient, ha, if_true, List.map_cons]
      exact (List.Sublist.refl _).cons _
    · simp only [removeClient, ha, if_false, List.map_cons]
      exact ih.cons₂ _

theorem removeClient_not_mem (cid : String) :
    ∀ l : List (String × ClientInfo), (l.map Prod.fst).Nodup →
      cid ∉ (removeClient cid l).map Prod.fst := by
  intro l
  induction l with
  | nil => intro _; simp [removeClient]
  | cons p rest ih =>
    obtain ⟨a, b⟩ := p
    intro hnd
    simp only [List.map_cons, List.nodup_cons] at hnd
    by_cases ha : a = cid
    · subst ha
      simpa [removeClient] using hnd.1
    · simp only [removeClient, ha, if_false, List.map_cons, List.mem_cons]
      intro hc
      rcases hc with hc | hc
      · exact ha hc.symm
      · exact ih hnd.2 hc

theorem removeClient_countP (cid : String) (p : String × ClientInfo → Bool) :
    ∀ (l : List (String × ClientInfo)) (old : ClientInfo),
      lookupA cid l = some old →
      l.countP p = (removeClient cid l).countP p +
        (if p (cid, old) then 1 else 0) := by
  intro l
  induction l with
  | nil => intro old h; simp [lookupA] at h
  | cons q rest ih =>
    obtain ⟨a, b⟩ := q
    intro old h
    by_cases ha : a = cid
    · subst ha
      have hb : b = old := by simpa [lookupA] using h
      subst hb
      rw [show removeClient a ((a, b) :: rest) = rest from by
        simp [removeClient]]
      rw [List.countP_cons]
    · simp only [lookupA, ha, if_false] at h
      rw [show removeClient cid ((a, b) :: rest) =
          (a, b) :: removeClient cid rest from by simp [removeClient, ha]]
      rw [List.countP_cons, List.countP_cons, ih old h]
      omega

theorem removeClient_length (cid : String) :
    ∀ (l : List (String × ClientInfo)) (old : ClientInfo),
      lookupA cid l = some old →
      l.length = (removeClient cid l).length + 1 := by
  intro l
  induction l with
  | nil => intro old h; simp [lookupA] at h
  | cons q rest ih =>
    obtain ⟨a, b⟩ := q
    intro old h
    by_cases ha : a = cid
    · subst ha
      simp [removeClient]
    · simp only [lookupA, ha, if_false] at h
      simp [removeClient, ha, ih old h]

theorem incUser_userRef (uid u : String) :
    ∀ users : List (String × Nat),
      userRef uid (incUser u users) =
        userRef uid users + (if uid = u then 1 else 0) := by
  intro users
  induction users with
  | nil =>
    by_cases h : uid = u
    · simp [incUser, userRef, lookupA, h]
    · have h2 : ¬u = uid := fun hx => h hx.symm
      simp [incUser, userRef, lookupA, h, h2]
  | cons q rest ih =>
    obtain ⟨a, n⟩ := q
    by_cases ha : a = u
    · by_cases h : uid = u
      · simp [incUser, userRef, lookupA, ha, h]
      · have h2 : ¬u = uid := fun hx => h hx.symm
        simp [incUser, userRef, lookupA, ha, h, h2]
    · by_cases hau : a = uid
      · have h3 : ¬uid = u := fun hx => ha (hau.trans hx)
        simp [incUser, userRef, lookupA, ha, hau, h3]
      · simp only [incUser, ha, if_false]
        have e1 : userRef uid ((a, n) :: incUser u rest) =
            userRef uid (incUser u rest) := by
          simp [userRef, lookupA, hau]
        have e2 : userRef uid ((a, n) :: rest) = userRef uid rest := by
          simp [userRef, lookupA, hau]
        rw [e1, e2, ih]

theorem incUser_map_fst_mem (u : String) :
    ∀ (users : List (String × Nat)) (x : String),
      x ∈ (incUser u users).map Prod.fst →
      x ∈ users.map Prod.fst ∨ x = u := by
  intro users
  induction users with
  | nil =>
    intro x hx
    simp [incUser] at hx
    right; exact hx
  | cons q rest ih =>
    obtain ⟨a, n⟩ := q
    intro x hx
    by_cases ha : a = u
    · rw [show incUser u ((a, n) :: rest) = (a, n + 1) :: rest from by
        simp [incUser, ha]] at hx
      rw [List.map_cons, List.mem_cons] at hx
      rcases hx with hx | hx
      · left; rw [hx]; simp
      · left; simp [hx]
    · rw [show incUser u ((a, n) :: rest) = (a, n) :: incUser u rest from by
        simp [incUser, ha]] at hx
      rw [List.map_cons, List.mem_cons] at hx
      rcases hx with hx | hx
      · left; rw [hx]; simp
      · rcases ih x hx with h1 | h1
        · left; simp [h1]
        · right; exact h1

theorem incUser_map_fst_nodup (u : String) :
    ∀ users : List (String × Nat), (users.map Prod.fst).Nodup →
      ((incUser u users).map Prod.fst).Nodup := by
  intro users
  induction users with
  | nil => intro _; simp [incUser]
  | cons q rest ih =>
    obtain ⟨a, n⟩ := q
    intro hnd
    simp only [List.map_cons, List.nodup_cons] at hnd
    by_cases ha : a = u
    · have hstep : incUser u ((a, n) :: rest) = (a, n + 1) :: rest := by
        simp [incUser, ha]
      rw [hstep, List.map_cons, List.nodup_cons]
      exact ⟨hnd.1, hnd.2⟩
    · have hstep : incUser u ((a, n) :: rest) = (a, n) :: incUser u rest := by
        simp [incUser, ha]
      rw [hstep, List.map_cons, List.nodup_cons]
      refine ⟨?_, ih hnd.2⟩
      intro hmem
      rcases incUser_map_fst_mem u rest a hmem with h1 | h1
      · exact hnd.1 h1
      · exact ha h1

theorem incUser_pos (u : String) :
    ∀ users : List (String × Nat), (∀ p ∈ users, 1 ≤ p.snd) →
      ∀ p ∈ incUser u users, 1 ≤ p.snd := by
  intro users
  induction users with
  | nil =>
    intro _ p hp
    simp [incUser] at hp
    simp [hp]
  | cons q rest ih =>
    obtain ⟨a, n⟩ := q
    intro hpos p hp
    by_cases ha : a = u
    · have hstep : incUser u ((a, n) :: rest) = (a, n + 1) :: rest := by
        simp [incUser, ha]
      rw [hstep] at hp
      rcases List.mem_cons.mp hp with hp1 | hp1
      · rw [hp1]; simp
      · exact hpos p (List.mem_cons_of_mem _ hp1)
    · have hstep : incUser u ((a, n) :: rest) = (a, n) :: incUser u rest := by
        simp [incUser, ha]
      rw [hstep] at hp
      rcases List.mem_cons.mp hp with hp1 | hp1
      · rw [hp1]; exact hpos (a, n) (by simp)
      · exact ih (fun x hx => hpos x (by simp [hx])) p hp1

theorem decUser_userRef (uid u : String) :
    ∀ users : List (String × Nat), (users.map Prod.fst).Nodup →
      userRef uid (decUser u users) =
        userRef uid users - (if uid = u then 1 else 0) := by
  intro users
  induction users with
  | nil => intro _; simp [decUser, userRef, lookupA]
  | cons q rest ih =>
    obtain ⟨a, n⟩ := q
    intro hnd
    simp only [List.map_cons, List.nodup_cons] at hnd
    by_cases ha : a = u
    · by_cases h : uid = u
      · have hax : a = uid := ha.trans h.symm
        have hnone : lookupA uid rest = none := by
          rw [lookupA_eq_none_iff]
          rw [hax] at hnd
          exact hnd.1
        by_cases hn : n ≤ 1
        · rw [show decUser u ((a, n) :: rest) = rest from by
            simp [decUser, ha, hn]]
          rw [show userRef uid ((a, n) :: rest) = n from by
            simp [userRef, lookupA, hax]]
          rw [show userRef uid rest = 0 from by simp [userRef, hnone]]
          simp only [h, if_true]
          omega
        · rw [show decUser u ((a, n) :: rest) = (a, n - 1) :: rest from by
            simp [decUser, ha, hn]]
          rw [show userRef uid ((a, n - 1) :: rest) = n - 1 from by
            simp [userRef, lookupA, hax]]
          rw [show userRef uid ((a, n) :: rest) = n from by
            simp [userRef, lookupA, hax]]
          simp [h]
      · have hax : ¬a = uid := fun hx => h (hx.symm.trans ha)
        by_cases hn : n ≤ 1
        · rw [show decUser u ((a, n) :: rest) = rest from by
            simp [decUser, ha, hn]]
          rw [show userRef uid ((a, n) :: rest) = userRef uid rest from by
            simp [userRef, lookupA, hax]]
          simp [h]
        · rw [show decUser u ((a, n) :: rest) = (a, n - 1) :: rest from by
            simp [decUser, ha, hn]]
          rw [show userRef uid ((a, n - 1) :: rest) = userRef uid rest from by
            simp [userRef, lookupA, hax]]
          rw [show userRef uid ((a, n) :: rest) = userRef uid rest from by
            simp [userRef, lookupA, hax]]
          simp [h]
    · rw [show decUser u ((a, n) :: rest) = (a, n) :: decUser u rest from by
        simp [decUser, ha]]
      by_cases hax : a = uid
      · have h3 : ¬uid = u := fun hx => ha (hax.trans hx)
        rw [show userRef uid ((a, n) :: decUser u rest) = n from by
          simp [userRef, lookupA, hax]]
        rw [show userRef uid ((a, n) :: rest) = n from by
          simp [userRef, lookupA, hax]]
        simp [h3]
      · rw [show userRef uid ((a, n) :: decUser u rest) =
            userRef uid (decUser u rest) from by simp [userRef, lookupA, hax]]
        rw [show userRef uid ((a, n) :: rest) = userRef uid rest from by
          simp [userRef, lookupA, hax]]
        exact ih hnd.2

theorem decUser_map_fst_sublist (u : String) :
    ∀ users : List (String × Nat),
      ((decUser u users).map Prod.fst).Sublist (users.map Prod.fst) := by
  intro users
  induction users with
  | nil => simp [decUser]
  | cons q rest ih =>
    obtain ⟨a, n⟩ := q
    by_cases ha : a = u
    · by_cases hn : n ≤ 1
      · rw [show decUser u ((a, n) :: rest) = rest from by
          simp [decUser, ha, hn]]
        exact (List.Sublist.refl _).cons _
      · rw [show decUser u ((a, n) :: rest) = (a, n - 1) :: rest from by
          simp [decUser, ha, hn]]
        simp
    · rw [show decUser u ((a, n) :: rest) = (a, n) :: decUser u rest from by
        simp [decUser, ha]]
      rw [List.map_cons, List.map_cons]
      exact ih.cons₂ _

theorem decUser_pos (u : String) :
    ∀ users : List (String × Nat), (∀ p ∈ users, 1 ≤ p.snd) →
      ∀ p ∈ decUser u users, 1 ≤ p.snd := by
  intro users
  induction users with
  | nil => intro _ p hp; simp [decUser] at hp
  | cons q rest ih =>
    obtain ⟨a, n⟩ := q
    intro hpos p hp
    by_cases ha : a = u
    · by_cases hn : n ≤ 1
      · rw [show decUser u ((a, n) :: rest) = rest from by
          simp [decUser, ha, hn]] at hp
        exact hpos p (List.mem_cons_of_mem _ hp)
      · rw [show decUser u ((a, n) :: rest) = (a, n - 1) :: rest from by
          simp [decUser, ha, hn]] at hp
        rcases List.mem_cons.mp hp with hp1 | hp1
        · rw [hp1]
          simp only []
          omega
        · exact hpos p (List.mem_cons_of_mem _ hp1)
    · rw [show decUser u ((a, n) :: rest) = (a, n) :: decUser u rest from by
        simp [decUser, ha]] at hp
      rcases List.mem_cons.mp hp with hp1 | hp1
      · rw [hp1]; exact hpos (a, n) (by simp)
      · exact ih (fun x hx => hpos x (by simp [hx])) p hp1

theorem countP_cons_userCount (cid x : String) (info : ClientInfo)
    (l : List (String × ClientInfo)) :
    List.countP (fun p => p.snd.UserID == x) ((cid, info) :: l) =
      List.countP (fun p => p.snd.UserID == x) l +
        (if x = info.UserID then 1 else 0) := by
  rw [List.countP_cons]
  by_cases hx : x = info.UserID
  · simp [hx]
  · have hx2 : ¬info.UserID = x := fun hh => hx hh.symm
    simp [hx, hx2]

theorem removeClient_userCount (cid x : String)
    (l : List (String × ClientInfo)) (old : ClientInfo)
    (h : lookupA cid l = some old) :
    List.countP (fun p => p.snd.UserID == x) l =
      List.countP (fun p => p.snd.UserID == x) (removeClient cid l) +
        (if x = old.UserID then 1 else 0) := by
  rw [removeClient_countP cid (fun p => p.snd.UserID == x) l old h]
  by_cases hx : x = old.UserID
  · simp [hx]
  · have hx2 : ¬old.UserID = x := fun hh => hx hh.symm
    simp [hx, hx2]

theorem AddPresence_inv (ch : PresenceChannel) (cid : String)
    (info : ClientInfo) (hinv : PresenceInv ch) :
    PresenceInv (AddPresence ch cid info) := by
  obtain ⟨hcn, hun, hup, hrc⟩ := hinv
  have hrc1 : ∀ x : String, userRef x ch.users =
      List.countP (fun p => p.snd.UserID == x) ch.clients := hrc
  match hl : lookupA cid ch.clients with
  | none =>
    have hstep : AddPresence ch cid info =
        { clients := (cid, info) :: ch.clients,
          users := incUser info.UserID ch.users } := by
      unfold AddPresence
      rw [hl]
    rw [hstep]
    refine ⟨?_, ?_, ?_, ?_⟩
    · rw [List.map_cons]
      exact List.nodup_cons.mpr
        ⟨(lookupA_eq_none_iff cid ch.clients).mp hl, hcn⟩
    · exact incUser_map_fst_nodup _ _ hun
    · exact incUser_pos _ _ hup
    · intro uid
      show userRef uid (incUser info.UserID ch.users) =
        List.countP (fun p => p.snd.UserID == uid) ((cid, info) :: ch.clients)
      rw [incUser_userRef, countP_cons_userCount, hrc1 uid]
  | some old =>
    have hcn1 : ((((cid, info) :: removeClient cid ch.clients)).map
        Prod.fst).Nodup := by
      rw [List.map_cons]
      exact List.nodup_cons.mpr
        ⟨removeClient_not_mem cid ch.clients hcn,
          List.Nodup.sublist (removeClient_map_fst_sublist cid ch.clients) hcn⟩
    by_cases hsame : old.UserID = info.UserID
    · have hstep : AddPresence ch cid info =
          { clients := (cid, info) :: removeClient cid ch.clients,
            users := ch.users } := by
        unfold AddPresence
        rw [hl]
        simp [hsame]
      rw [hstep]
      refine ⟨hcn1, hun, hup, ?_⟩
      intro uid
      show userRef uid ch.users =
        List.countP (fun p => p.snd.UserID == uid)
          ((cid, info) :: removeClient cid ch.clients)
      rw [countP_cons_userCount, hrc1 uid,
        removeClient_userCount cid uid ch.clients old hl, hsame]
    · have hstep : AddPresence ch cid info =
          { clients := (cid, info) :: removeClient cid ch.clients,
            users := incUser info.UserID (decUser old.UserID ch.users) } := by
        unfold AddPresence
        rw [hl]
        simp [hsame]
      rw [hstep]
      refine ⟨hcn1, ?_, ?_, ?_⟩
      · exact incUser_map_fst_nodup _ _
          (List.Nodup.sublist (decUser_map_fst_sublist _ ch.users) hun)
      · exact incUser_pos _ _ (decUser_pos _ ch.users hup)
      · intro uid
        show userRef uid (incUser info.UserID (decUser old.UserID ch.users)) =
          List.countP (fun p => p.snd.UserID == uid)
            ((cid, info) :: removeClient cid ch.clients)
        rw [incUser_userRef, decUser_userRef _ _ ch.users hun,
          countP_cons_userCount, hrc1 uid,
          removeClient_userCount cid uid ch.clients old hl]
        omega

theorem RemovePresence_inv (ch : PresenceChannel) (cid uid : String)
    (hinv : PresenceInv ch)
    (hcons : ∀ info : ClientInfo,
      lookupA cid ch.clients = some info → info.UserID = uid) :
    PresenceInv (RemovePresence ch cid uid) := by
  obtain ⟨hcn, hun, hup, hrc⟩ := hinv
  have hrc1 : ∀ x : String, userRef x ch.users =
      List.countP (fun p => p.snd.UserID == x) ch.clients := hrc
  match hl : lookupA cid ch.clients with
  | none =>
    have hstep : RemovePresence ch cid uid = ch := by
      unfold RemovePresence
      rw [hl]
    rw [hstep]
    exact ⟨hcn, hun, hup, hrc⟩
  | some info =>
    have hu : info.UserID = uid := hcons info hl
    have hstep : RemovePresence ch cid uid =
        { clients := removeClient cid ch.clients,
          users := decUser uid ch.users } := by
      unfold RemovePresence
      rw [hl]
    rw [hstep]
    refine ⟨List.Nodup.sublist (removeClient_map_fst_sublist cid ch.clients)
      hcn, List.Nodup.sublist (decUser_map_fst_sublist _ ch.users) hun,
      decUser_pos _ ch.users hup, ?_⟩
    intro x
    show userRef x (decUser uid ch.users) =
      List.countP (fun p => p.snd.UserID == x) (removeClient cid ch.clients)
    rw [decUser_userRef _ _ ch.users hun, hrc1 x,
      removeClient_userCount cid x ch.clients info hl, hu]
    omega

theorem userRef_pos_iff (ch : PresenceChannel) (hinv : PresenceInv ch)
    (x : String) :
    0 < userRef x ch.users ↔ x ∈ ch.users.map Prod.fst := by
  constructor
  · intro hpos
    match hlk : lookupA x ch.users with
    | none => simp [userRef, hlk] at hpos
    | some n =>
      exact List.mem_map.mpr ⟨(x, n), lookupA_mem x ch.users n hlk, rfl⟩
  · intro hmem
    match hlk : lookupA x ch.users with
    | none =>
      exact absurd hmem ((lookupA_eq_none_iff x ch.users).mp hlk)
    | some n =>
      have h1 : 1 ≤ n := hinv.usersPos (x, n) (lookupA_mem x ch.users n hlk)
      simp [userRef, hlk]
      omega

theorem inv_numUsers (ch : PresenceChannel) (hinv : PresenceInv ch) :
    ch.users.length = ((ch.clients.map fun p => p.snd.UserID).dedup).length := by
  have h1 : ch.users.length = (ch.users.map Prod.fst).length := by
    rw [List.length_map]
  have h3 : (ch.users.map Prod.fst).toFinset.card =
      (ch.users.map Prod.fst).length :=
    List.toFinset_card_of_nodup hinv.usersNodup
  have h4 : ((ch.clients.map fun p => p.snd.UserID)).toFinset.card =
      ((ch.clients.map fun p => p.snd.UserID)).dedup.length :=
    List.card_toFinset _
  have h5 : (ch.users.map Prod.fst).toFinset =
      ((ch.clients.map fun p => p.snd.UserID)).toFinset := by
    ext x
    rw [List.mem_toFinset, List.mem_toFinset]
    rw [← userRef_pos_iff ch hinv x]
    rw [show userRef x ch.users =
      List.countP (fun p => p.snd.UserID == x) ch.clients from hinv.refCount x]
    rw [List.countP_pos_iff]
    constructor
    · intro ⟨p, hp, hpx⟩
      exact List.mem_map.mpr ⟨p, hp, by simpa using hpx⟩
    · intro hx
      obtain ⟨p, hp, hpx⟩ := List.mem_map.mp hx
      exact ⟨p, hp, by simpa using hpx⟩
  rw [h1, ← h3, h5, h4]

theorem inv_numClients (ch : PresenceChannel) (hinv : PresenceInv ch) :
    ch.clients.length = (((ch.clients.map Prod.fst)).dedup).length := by
  rw [List.dedup_eq_self.mpr hinv.clientsNodup, List.length_map]

theorem emptyChannel_inv : PresenceInv emptyChannel := by
  refine ⟨by simp [emptyChannel], by simp [emptyChannel],
    by simp [emptyChannel], ?_⟩
  intro uid
  simp [emptyChannel, userRef, lookupA, clientUserCount]

theorem applyOps_inv :
    ∀ (ops : List PresenceOp) (ch : PresenceChannel),
      PresenceInv ch → consistentOps ch ops = true →
      PresenceInv (applyOps ch ops) := by
  intro ops
  induction ops with
  | nil => intro ch h _; exact h
  | cons op ops ih =>
    intro ch h hc
    have happ : applyOps ch (op :: ops) = applyOps (applyOp ch op) ops := rfl
    rw [happ]
    match op with
    | PresenceOp.add cid info =>
      have hc1 : (true &&
          consistentOps (applyOp ch (PresenceOp.add cid info)) ops) =
          true := hc
      rw [Bool.true_and] at hc1
      exact ih _ (AddPresence_inv ch cid info h) hc1
    | PresenceOp.remove cid uid =>
      have hc1 : ((match lookupA cid ch.clients with
          | some info => info.UserID == uid
          | none => true) &&
          consistentOps (applyOp ch (PresenceOp.remove cid uid)) ops) =
          true := hc
      simp only [Bool.and_eq_true] at hc1
      obtain ⟨h1, h2⟩ := hc1
      refine ih _ (RemovePresence_inv ch cid uid h ?_) h2
      intro info hlk
      rw [hlk] at h1
      simpa using h1

theorem AddPresence_repeat (ch : PresenceChannel) (cid : String)
    (info old : ClientInfo) (hl : lookupA cid ch.clients = some old)
    (hu : old.UserID = info.UserID) :
    (AddPresence ch cid info).PresenceStats = ch.PresenceStats := by
  have hstep : AddPresence ch cid info =
      { clients := (cid, info) :: removeClient cid ch.clients,
        users := ch.users } := by
    unfold AddPresence
    rw [hl]
    simp [hu]
  rw [hstep]
  unfold PresenceChannel.PresenceStats
  simp only [List.length_cons]
  rw [show (removeClient cid ch.clients).length + 1 = ch.clients.length from
    (removeClient_length cid ch.clients old hl).symm]

/-- C7: with user-mapping enabled, after any sequence of AddPresence and
RemovePresence calls on an initially empty channel (a sequence in which every
Remove passes the stored UserID of the client it removes, the contract the
node honours), PresenceStats reports NumClients equal to the number of
distinct clientIDs present and NumUsers equal to the number of distinct
UserIDs present; and repeating AddPresence for an already-present clientID
with the same UserID leaves both counts unchanged. -/
theorem presence_user_mapping_stats (ops : List PresenceOp)
    (hcons : consistentOps emptyChannel ops = true) :
    ((applyOps emptyChannel ops).PresenceStats.NumClients =
      ((((applyOps emptyChannel ops).clients.map Prod.fst)).dedup).length) ∧
    ((applyOps emptyChannel ops).PresenceStats.NumUsers =
      (((applyOps emptyChannel ops).clients.map fun p =>
        p.snd.UserID).dedup).length) ∧
    (∀ (cid : String) (info old : ClientInfo),
      lookupA cid (applyOps emptyChannel ops).clients = some old →
      old.UserID = info.UserID →
      (AddPresence (applyOps emptyChannel ops) cid info).PresenceStats =
        (applyOps emptyChannel ops).PresenceStats) := by
  have hinv := applyOps_inv ops emptyChannel emptyChannel_inv hcons
  refine ⟨inv_numClients _ hinv, inv_numUsers _ hinv, ?_⟩
  intro cid info old hl hu
  exact AddPresence_repeat _ cid info old hl hu

/-- Witness for C7 at the concrete call sequence of the user-mapping test:
two adds of client uid under user 1, an add of uid-2 under user 1, an add of
uid-3 under user 2, then removal of uid — and a repeated add for uid-2. -/
theorem presence_user_mapping_stats_witness :
    ((applyOps emptyChannel
        [PresenceOp.add "uid" ⟨"uid", "1"⟩,
          PresenceOp.add "uid" ⟨"uid", "1"⟩,
          PresenceOp.add "uid-2" ⟨"uid-2", "1"⟩,
          PresenceOp.add "uid-3" ⟨"uid-3", "2"⟩,
          PresenceOp.remove "uid" "1"]).PresenceStats.NumUsers =
      ((((applyOps emptyChannel
        [PresenceOp.add "uid" ⟨"uid", "1"⟩,
          PresenceOp.add "uid" ⟨"uid", "1"⟩,
          PresenceOp.add "uid-2" ⟨"uid-2", "1"⟩,
          PresenceOp.add "uid-3" ⟨"uid-3", "2"⟩,
          PresenceOp.remove "uid" "1"]).clients.map fun p =>
            p.snd.UserID)).dedup).length) ∧
    ((AddPresence (applyOps emptyChannel
        [PresenceOp.add "uid" ⟨"uid", "1"⟩,
          PresenceOp.add "uid" ⟨"uid", "1"⟩,
          PresenceOp.add "uid-2" ⟨"uid-2", "1"⟩,
          PresenceOp.add "uid-3" ⟨"uid-3", "2"⟩,
          PresenceOp.remove "uid" "1"]) "uid-2"
            ⟨"uid-2", "1"⟩).PresenceStats =
      (applyOps emptyChannel
        [PresenceOp.add "uid" ⟨"uid", "1"⟩,
          PresenceOp.add "uid" ⟨"uid", "1"⟩,
          PresenceOp.add "uid-2" ⟨"uid-2", "1"⟩,
          PresenceOp.add "uid-3" ⟨"uid-3", "2"⟩,
          PresenceOp.remove "uid" "1"]).PresenceStats) :=
  ⟨(presence_user_mapping_stats
      [PresenceOp.add "uid" ⟨"uid", "1"⟩,
        PresenceOp.add "uid" ⟨"uid", "1"⟩,
        PresenceOp.add "uid-2" ⟨"uid-2", "1"⟩,
        PresenceOp.add "uid-3" ⟨"uid-3", "2"⟩,
        PresenceOp.remove "uid" "1"] (by decide)).2.1,
    (presence_user_mapping_stats
      [PresenceOp.add "uid" ⟨"uid", "1"⟩,
        PresenceOp.add "uid" ⟨"uid", "1"⟩,
        PresenceOp.add "uid-2" ⟨"uid-2", "1"⟩,
        PresenceOp.add "uid-3" ⟨"uid-3", "2"⟩,
        PresenceOp.remove "uid" "1"] (by decide)).2.2 "uid-2"
      ⟨"uid-2", "1"⟩ ⟨"uid-2", "1"⟩ (by decide) rfl⟩

end Centrifuge
